import Mathlib

/-!
Verification of the ARR array codec and editor model of the
`vsc-arr-editor` repository (a VS Code extension editing the binary
"ARR" typed-array format of a legacy game engine).

The development shallowly embeds:

* the sequential byte-cursor primitives of
  `src/fileFormats/utils.ts` (`BinaryBuffer.getUint32`, `getInt32`,
  `read`, and the corresponding writers over the growable view) as
  functions that consume a `List Nat` of bytes from the front — the
  source reader is strictly sequential, so an advancing offset into a
  fixed list and consumption from the front are observationally
  identical;
* the tagged-record codec of `src/fileFormats/archive/array.ts`
  (`deserializeArray` / `serializeArray` over entries
  `{type: 'int'|'string'|'bool'|'double', value}`), namespace `Arr`;
* the raw-value codec revision of the `reksio-formats` array module
  (entries are JavaScript `bigint | string | boolean | number` values),
  namespace `RF`;
* the type-coercion helpers and document commands of the editor
  (`makeIntegerEntry`, `makeStringEntry`, `makeBoolEntry`,
  `makeDoubleEntry`, `convertEntry`, `ArrDocument.addEntry`,
  `ArrDocument.removeEntries`), namespace `Editor`.

JavaScript numbers are modelled as rationals (`ℚ`) for finite values,
plus explicit `NaN` and infinities where a value of those kinds is
reachable.  The binary64 rounding of the codec's double-payload
arithmetic — the IEEE product `value * 10000` on encode and the IEEE
quotient `int32 / 10000` on decode — is modelled explicitly by
`Utils.flQ` (round to nearest, ties to even, 53 significant bits; the
exponent is unbounded, overflow and subnormals lying far outside the
exercised range).  The coercion helpers' arithmetic is modelled exactly
in `ℚ`; the claims exercising them involve only exactly-representable
values.

JavaScript strings are modelled as lists of UTF-16 code units
(`List Nat`, each `< 0x10000`); `.length` of the source is `List.length`
of the model.
-/

namespace Utils

/-- Decode-time failures. `rangeError` models the `RangeError` thrown by
the native `DataView` getters when the requested field extends past the
end of the view; `unknownType` models the `Error` thrown by the
`reksio-formats` revision of `deserializeArray` on a type tag outside
`{1, 2, 3, 4}`. -/
inductive DecodeError
  | rangeError
  | unknownType (tag : Nat)
  deriving DecidableEq, Repr

/-- Little-endian 4-byte encoding of a 32-bit word, as produced by
`DataView.setUint32(offset, value, true)` (the value is taken modulo
`2 ^ 32` by the `ToUint32` conversion, which byte extraction performs
implicitly). -/
def u32LE (v : Nat) : List Nat :=
  [v % 256, v / 256 % 256, v / 65536 % 256, v / 16777216 % 256]

/-- Little-endian reassembly of 4 bytes, as performed by
`DataView.getUint32(offset, true)`. -/
def readLE4 (b0 b1 b2 b3 : Nat) : Nat :=
  b0 + 256 * b1 + 65536 * b2 + 16777216 * b3

/-- `BinaryBuffer.getUint32`: reads 4 bytes at the cursor and advances.
The bounds check is the one performed by the native
`DataView.getUint32`, which throws `RangeError` when fewer than 4 bytes
remain. -/
def getUint32 : List Nat → Except DecodeError (Nat × List Nat)
  | b0 :: b1 :: b2 :: b3 :: rest => .ok (readLE4 b0 b1 b2 b3, rest)
  | _ => .error .rangeError

/-- Reinterpretation of a 32-bit word as a signed integer, as performed
by `DataView.getInt32`. -/
def asInt32 (u : Nat) : Int :=
  if u < 2147483648 then (u : Int) else (u : Int) - 4294967296

/-- `BinaryBuffer.getInt32`: same 4 bytes as `getUint32`, reinterpreted
as a signed 32-bit value. -/
def getInt32 (l : List Nat) : Except DecodeError (Int × List Nat) :=
  match getUint32 l with
  | .ok (u, rest) => .ok (asInt32 u, rest)
  | .error e => .error e

/-- `BinaryBuffer.read(size)`: `this.view.buffer.slice(offset, offset + size)`
then `offset += size`.  `ArrayBuffer.slice` clamps its range to the
buffer, so when fewer than `size` bytes remain the available bytes are
returned and no error is raised; `List.take` / `List.drop` clamp in
exactly the same way. -/
def read (l : List Nat) (size : Nat) : List Nat × List Nat :=
  (l.take size, l.drop size)

/-- Truncation toward zero of a rational, as performed by `Math.trunc`
and by the `ToInt32` conversion inside `DataView.setInt32` on a finite
number. -/
def jsTrunc (q : ℚ) : Int :=
  if q < 0 then -((-q).floor) else q.floor

/-- The `ToInt32` conversion of `DataView.setInt32` on a finite number:
truncate toward zero, then reduce modulo `2 ^ 32` to the stored 32-bit
pattern. -/
def int32Bits (q : ℚ) : Nat :=
  (jsTrunc q % 4294967296).toNat

/-- `BinaryBuffer.setInt32` over the growable output view: append the 4
little-endian bytes of the `ToInt32` image of the value.  The argument
is a JavaScript number, already a binary64 value: where the source
passes an arithmetic expression (the double payload `value * 10000`),
the callers below apply `flQ` to the product first, mirroring the IEEE
evaluation of that expression; `ToInt32` itself — truncation toward
zero, then reduction modulo `2 ^ 32` — is exact. -/
def setInt32Bytes (q : ℚ) : List Nat :=
  u32LE (int32Bits q)

/-- High half of the windows-1250 decoding table: the UTF-16 code unit
the host `TextDecoder` produces for each byte `0x80 + i` (per the WHATWG
encoding index; bytes `0x81, 0x83, 0x88, 0x90, 0x98` are undefined in
the code page and decode to the corresponding C1 controls). -/
def win1250High : List Nat :=
  [0x20AC, 0x0081, 0x201A, 0x0083, 0x201E, 0x2026, 0x2020, 0x2021,
   0x0088, 0x2030, 0x0160, 0x2039, 0x015A, 0x0164, 0x017D, 0x0179,
   0x0090, 0x2018, 0x2019, 0x201C, 0x201D, 0x2022, 0x2013, 0x2014,
   0x0098, 0x2122, 0x0161, 0x203A, 0x015B, 0x0165, 0x017E, 0x017A,
   0x00A0, 0x02C7, 0x02D8, 0x0141, 0x00A4, 0x0104, 0x00A6, 0x00A7,
   0x00A8, 0x00A9, 0x015E, 0x00AB, 0x00AC, 0x00AD, 0x00AE, 0x017B,
   0x00B0, 0x00B1, 0x02DB, 0x0142, 0x00B4, 0x00B5, 0x00B6, 0x00B7,
   0x00B8, 0x0105, 0x015F, 0x00BB, 0x013D, 0x02DD, 0x013E, 0x017C,
   0x0154, 0x00C1, 0x00C2, 0x0102, 0x00C4, 0x0139, 0x0106, 0x00C7,
   0x010C, 0x00C9, 0x0118, 0x00CB, 0x011A, 0x00CD, 0x00CE, 0x010E,
   0x0110, 0x0143, 0x0147, 0x00D3, 0x00D4, 0x0150, 0x00D6, 0x00D7,
   0x0158, 0x016E, 0x00DA, 0x0170, 0x00DC, 0x00DD, 0x0162, 0x00DF,
   0x0155, 0x00E1, 0x00E2, 0x0103, 0x00E4, 0x013A, 0x0107, 0x00E7,
   0x010D, 0x00E9, 0x0119, 0x00EB, 0x011B, 0x00ED, 0x00EE, 0x010F,
   0x0111, 0x0144, 0x0148, 0x00F3, 0x00F4, 0x0151, 0x00F6, 0x00F7,
   0x0159, 0x016F, 0x00FA, 0x0171, 0x00FC, 0x00FD, 0x0163, 0x02D9]

/-- Modelled from the spec: the decode direction of the legacy text
codec (`new TextDecoder('windows-1250')`, an external host facility not
in `src/`).  ASCII bytes decode to themselves, high bytes through the
windows-1250 index. -/
def decodeWin1250Byte (b : Nat) : Nat :=
  if b < 128 then b else win1250High.getD (b - 128) 0xFFFD

/-- The five windows-1250 bytes with no assigned character.  The host
decoder maps them to C1 controls, but the encoder (`iconv-lite`) has no
mapping back, so those code units are not representable. -/
def win1250Unmapped : List Nat := [0x0081, 0x0083, 0x0088, 0x0090, 0x0098]

/-- Modelled from the spec: the encode direction of the legacy text
codec (`iconv-lite` `encode(input, 'windows-1250')`, an external
dependency not in `src/`).  Each UTF-16 code unit becomes exactly one
byte: its windows-1250 byte when representable, the substitution byte
`0x3F` (a question mark) otherwise — `iconv-lite`'s single-byte encoder
allocates one output byte per input code unit. -/
def encodeWin1250Unit (c : Nat) : Nat :=
  if c < 128 then c
  else if c ∈ win1250Unmapped then 0x3F
  else match win1250High.findIdx? (· == c) with
    | some i => 128 + i
    | none => 0x3F

/-- Text decode of a byte sequence (one code unit per byte). -/
def decodeWin1250 (bytes : List Nat) : List Nat :=
  bytes.map decodeWin1250Byte

/-- Text encode of a code-unit sequence (one byte per code unit). -/
def encodeWin1250 (s : List Nat) : List Nat :=
  s.map encodeWin1250Unit

/-- A code unit is representable in the legacy code page when encoding
and then decoding it gives it back. -/
def win1250Representable (c : Nat) : Prop :=
  decodeWin1250Byte (encodeWin1250Unit c) = c

instance (c : Nat) : Decidable (win1250Representable c) := by
  unfold win1250Representable; infer_instance

/-- UTF-16 code units of an ASCII string, for stating concrete facts. -/
def units (s : String) : List Nat :=
  s.toList.map Char.toNat

theorem encodeWin1250_length (s : List Nat) :
    (encodeWin1250 s).length = s.length :=
  List.length_map _ _

theorem decodeWin1250_encodeWin1250 (s : List Nat)
    (h : ∀ c ∈ s, win1250Representable c) :
    decodeWin1250 (encodeWin1250 s) = s := by
  induction s with
  | nil => rfl
  | cons c cs ih =>
    have hc : win1250Representable c := h c (List.mem_cons_self ..)
    have hcs := ih fun x hx => h x (List.mem_cons_of_mem _ hx)
    simpa [decodeWin1250, encodeWin1250] using
      And.intro hc (by simpa [decodeWin1250, encodeWin1250] using hcs)

theorem u32LE_length (v : Nat) : (u32LE v).length = 4 := rfl

theorem getUint32_u32LE (v : Nat) (rest : List Nat) :
    getUint32 (u32LE v ++ rest) = .ok (v % 4294967296, rest) := by
  simp only [u32LE, List.cons_append, List.nil_append, getUint32, readLE4]
  congr 2
  omega

theorem getUint32_u32LE_of_lt (v : Nat) (rest : List Nat)
    (h : v < 4294967296) :
    getUint32 (u32LE v ++ rest) = .ok (v, rest) := by
  rw [getUint32_u32LE, Nat.mod_eq_of_lt h]

theorem asInt32_int32Bits (k : Int)
    (h1 : -2147483648 ≤ k) (h2 : k < 2147483648) :
    asInt32 ((k % 4294967296).toNat) = k := by
  unfold asInt32
  split <;> omega

theorem rat_floor_eq_intFloor (q : ℚ) : q.floor = ⌊q⌋ := rfl

theorem jsTrunc_intCast (k : Int) : jsTrunc (k : ℚ) = k := by
  unfold jsTrunc
  rcases lt_or_ge (k : ℚ) 0 with h | h
  · rw [if_pos h]
    rw [show -(k : ℚ) = ((-k : Int) : ℚ) by push_cast; ring]
    rw [rat_floor_eq_intFloor, Int.floor_intCast]
    omega
  · rw [if_neg (not_lt.mpr h), rat_floor_eq_intFloor, Int.floor_intCast]

theorem getInt32_setInt32Bytes (k : Int) (rest : List Nat)
    (h1 : -2147483648 ≤ k) (h2 : k < 2147483648) :
    getInt32 (setInt32Bytes (k : ℚ) ++ rest) = .ok (k, rest) := by
  unfold setInt32Bytes int32Bits getInt32
  rw [jsTrunc_intCast]
  rw [getUint32_u32LE_of_lt _ _ (by omega)]
  dsimp only
  rw [asInt32_int32Bits k h1 h2]

theorem read_append (l1 l2 : List Nat) :
    read (l1 ++ l2) l1.length = (l1, l2) := by
  simp [read]

/-- Fuel-driven floor of the base-2 logarithm (the fuel argument only
ensures structural termination; `natLog2` supplies enough). -/
def log2Fuel : Nat → Nat → Nat
  | 0, _ => 0
  | fuel + 1, n => if n ≤ 1 then 0 else 1 + log2Fuel fuel (n / 2)

/-- Floor of the base-2 logarithm of a positive natural number. -/
def natLog2 (n : Nat) : Nat := log2Fuel n n

theorem log2Fuel_bounds (fuel : Nat) : ∀ n : Nat, 1 ≤ n → n ≤ fuel →
    2 ^ log2Fuel fuel n ≤ n ∧ n < 2 ^ (log2Fuel fuel n + 1) := by
  induction fuel with
  | zero => intro n h1 h2; omega
  | succ fuel ih =>
    intro n h1 h2
    rw [log2Fuel]
    by_cases hn : n ≤ 1
    · rw [if_pos hn]
      have hone : n = 1 := by omega
      subst hone
      decide
    · rw [if_neg hn]
      obtain ⟨ha, hb⟩ := ih (n / 2) (by omega) (by omega)
      rw [pow_add, pow_one] at hb
      constructor
      · rw [pow_add, pow_one]
        omega
      · rw [show 1 + log2Fuel fuel (n / 2) + 1 = 1 + (log2Fuel fuel (n / 2) + 1)
            by omega, pow_add, pow_add, pow_one]
        omega

theorem natLog2_bounds (n : Nat) (h : 1 ≤ n) :
    2 ^ natLog2 n ≤ n ∧ n < 2 ^ (natLog2 n + 1) :=
  log2Fuel_bounds n n h le_rfl

/-- Round a rational to the nearest integer, ties to even — the
rounding of significands prescribed by IEEE 754 round-to-nearest. -/
def roundHalfEven (x : ℚ) : Int :=
  let n := x.floor
  if x - (n : ℚ) < 1 / 2 then n
  else if (1 : ℚ) / 2 < x - (n : ℚ) then n + 1
  else if n % 2 = 0 then n else n + 1

theorem roundHalfEven_intCast (k : Int) : roundHalfEven (k : ℚ) = k := by
  unfold roundHalfEven
  rw [rat_floor_eq_intFloor, Int.floor_intCast]
  norm_num

/-- The binary exponent of a positive rational: the unique `e` with
`2 ^ e ≤ a < 2 ^ (e + 1)`, computed from the bit lengths of numerator
and denominator with a one-step correction. -/
def ratExp2 (a : ℚ) : Int :=
  (if (2 : ℚ) ^ ((natLog2 a.num.toNat : Int) - (natLog2 a.den : Int)) ≤ a
    then (natLog2 a.num.toNat : Int) - (natLog2 a.den : Int)
    else (natLog2 a.num.toNat : Int) - (natLog2 a.den : Int) - 1)

/-- Binary64 rounding of a positive rational: round the significand
`a / 2 ^ (e - 52)` to the nearest integer, ties to even, and scale
back. -/
def flPos (a : ℚ) : ℚ :=
  (roundHalfEven (a / (2 : ℚ) ^ (ratExp2 a - 52)) : ℚ) * (2 : ℚ) ^ (ratExp2 a - 52)

/-- Round a rational to the nearest IEEE binary64 value (round to
nearest, ties to even, 53 significant bits).  The exponent range is
unbounded: overflow to infinity and subnormal underflow are not
modelled, as the codec path only handles magnitudes between roughly
`10 ^ -4` and `2 ^ 31` where binary64 is normal.  This is the rounding
the JavaScript arithmetic operators apply to every product and
quotient. -/
def flQ (q : ℚ) : ℚ :=
  if q = 0 then 0
  else if q < 0 then -flPos (-q) else flPos q

theorem flPos_intCast (k : Int) (hk : 1 ≤ k) (hk2 : k < 2 ^ 53) :
    flPos (k : ℚ) = (k : ℚ) := by
  have hnum : ((k : ℚ)).num.toNat = k.toNat := by rw [Rat.num_intCast]
  have hden : ((k : ℚ)).den = 1 := Rat.den_intCast k
  have hbounds := natLog2_bounds k.toNat (by omega)
  set L := natLog2 k.toNat with hL
  have hcast : ((k.toNat : ℕ) : ℚ) = (k : ℚ) := by
    have h := Int.toNat_of_nonneg (by omega : (0 : Int) ≤ k)
    exact_mod_cast congrArg (fun z : ℤ => (z : ℚ)) h
  have hpow : ((2 ^ L : ℕ) : ℚ) ≤ (k : ℚ) := by
    rw [← hcast]
    exact_mod_cast hbounds.1
  have hzpow : (2 : ℚ) ^ ((L : Int)) = ((2 ^ L : ℕ) : ℚ) := by
    rw [zpow_natCast]
    push_cast
    ring
  have he : ratExp2 (k : ℚ) = (L : Int) := by
    unfold ratExp2
    rw [hnum, hden, ← hL, show natLog2 1 = 0 from by decide, Nat.cast_zero,
      sub_zero, if_pos (by rw [hzpow]; exact hpow)]
  have hL52 : L ≤ 52 := by
    by_contra hgt
    have h53 : (2 : ℕ) ^ 53 ≤ 2 ^ L := Nat.pow_le_pow_right (by omega) (by omega)
    have hlt : k.toNat < 2 ^ 53 := by omega
    omega
  have ht : (L : Int) - 52 = -((52 - L : ℕ) : Int) := by omega
  set t : ℕ := 52 - L with htdef
  have hxval : (k : ℚ) / (2 : ℚ) ^ ((L : Int) - 52) = ((k * 2 ^ t : Int) : ℚ) := by
    rw [ht, zpow_neg, div_eq_mul_inv, inv_inv, zpow_natCast]
    push_cast
    ring
  rw [flPos, he, hxval, roundHalfEven_intCast, ht, zpow_neg, zpow_natCast]
  push_cast
  rw [mul_inv_cancel_right₀ (by positivity)]

/-- Integers in the 32-bit range are exactly representable in binary64:
`flQ` fixes them. -/
theorem flQ_intCast (k : Int) (h1 : -2147483648 ≤ k) (h2 : k < 2147483648) :
    flQ (k : ℚ) = (k : ℚ) := by
  rcases lt_trichotomy k 0 with hk | hk | hk
  · have hne : ((k : ℚ)) ≠ 0 := by exact_mod_cast (by omega : k ≠ 0)
    have hlt : ((k : ℚ)) < 0 := by exact_mod_cast hk
    rw [flQ, if_neg hne, if_pos hlt]
    have hneg : -(k : ℚ) = ((-k : Int) : ℚ) := by push_cast; ring
    rw [hneg, flPos_intCast (-k) (by omega) (by norm_num; omega)]
    push_cast
    ring
  · subst hk; simp [flQ]
  · have hne : ((k : ℚ)) ≠ 0 := by exact_mod_cast (by omega : k ≠ 0)
    have hlt : ¬ ((k : ℚ)) < 0 := by
      push_neg
      exact_mod_cast (by omega : (0 : Int) ≤ k)
    rw [flQ, if_neg hne, if_neg hlt]
    exact flPos_intCast k (by omega) (by norm_num; omega)

theorem rat_floor_eval (x : ℚ) (n : Int) (h1 : (n : ℚ) ≤ x) (h2 : x < n + 1) :
    x.floor = n := by
  rw [rat_floor_eq_intFloor]
  exact Int.floor_eq_iff.mpr ⟨h1, h2⟩

theorem roundHalfEven_eval_lt (x : ℚ) (n : Int)
    (hfloor : x.floor = n) (hlt : x - (n : ℚ) < 1 / 2) :
    roundHalfEven x = n := by
  unfold roundHalfEven
  rw [hfloor, if_pos hlt]

theorem roundHalfEven_eval_gt (x : ℚ) (n : Int)
    (hfloor : x.floor = n) (h1 : ¬ x - (n : ℚ) < 1 / 2)
    (h2 : (1 : ℚ) / 2 < x - (n : ℚ)) :
    roundHalfEven x = n + 1 := by
  unfold roundHalfEven
  rw [hfloor, if_neg h1, if_pos h2]

theorem ratExp2_eval (a : ℚ) (Ln Ld : Nat) (e : Int)
    (hn : natLog2 a.num.toNat = Ln) (hd : natLog2 a.den = Ld)
    (he : ((if (2 : ℚ) ^ ((Ln : Int) - (Ld : Int)) ≤ a
      then (Ln : Int) - (Ld : Int) else (Ln : Int) - (Ld : Int) - 1)) = e) :
    ratExp2 a = e := by
  unfold ratExp2
  rw [hn, hd, he]

theorem flQ_eval_pos (a : ℚ) (e m : Int)
    (ha0 : ¬ a = 0) (haneg : ¬ a < 0)
    (he : ratExp2 a = e)
    (hm : roundHalfEven (a / (2 : ℚ) ^ (e - 52)) = m) :
    flQ a = (m : ℚ) * (2 : ℚ) ^ (e - 52) := by
  rw [flQ, if_neg ha0, if_neg haneg, flPos, he, hm]

/-- The binary64 value of the decimal literal `0.0003` (equivalently, of
the decoded fixed-point quotient `3 / 10000`): the nearest double lies
slightly above `3 / 10000`. -/
theorem flQ_3_div_10000 :
    flQ (3 / 10000) = 5534023222112865 / 18446744073709551616 := by
  have he : ratExp2 ((3 : ℚ) / 10000) = -12 :=
    ratExp2_eval _ 1 13 _
      (by rw [show ((3 : ℚ) / 10000).num.toNat = 3 by norm_num; decide]; decide)
      (by rw [show ((3 : ℚ) / 10000).den = 10000 by norm_num]; decide)
      (by rw [if_pos (by norm_num)]; norm_num)
  have hfloor : (((3 : ℚ) / 10000) / (2 : ℚ) ^ ((-12 : ℤ) - 52)).floor =
      5534023222112865 :=
    rat_floor_eval _ _ (by norm_num) (by norm_num)
  have hm : roundHalfEven (((3 : ℚ) / 10000) / (2 : ℚ) ^ ((-12 : ℤ) - 52)) =
      5534023222112865 :=
    roundHalfEven_eval_lt _ _ hfloor (by norm_num)
  rw [flQ_eval_pos _ _ _ (by norm_num) (by norm_num) he hm]
  norm_num

/-- The IEEE product of the double for `0.0003` with `10000` rounds to
`6755399441055743 / 2 ^ 51 = 2.9999999999999996`, strictly below `3` —
the source of the encode error. -/
theorem flQ_0003_times_10000 :
    flQ ((5534023222112865 / 18446744073709551616 : ℚ) * 10000) =
      6755399441055743 / 2251799813685248 := by
  have he : ratExp2 ((5534023222112865 / 18446744073709551616 : ℚ) * 10000) = 1 :=
    ratExp2_eval _ 61 60 _
      (by rw [show ((5534023222112865 / 18446744073709551616 : ℚ) * 10000).num.toNat
            = 3458764513820540625 by norm_num; decide]; decide)
      (by rw [show ((5534023222112865 / 18446744073709551616 : ℚ) * 10000).den
            = 1152921504606846976 by norm_num]; decide)
      (by rw [if_pos (by norm_num)]; norm_num)
  have hfloor : (((5534023222112865 / 18446744073709551616 : ℚ) * 10000) /
      (2 : ℚ) ^ ((1 : ℤ) - 52)).floor = 6755399441055743 :=
    rat_floor_eval _ _ (by norm_num) (by norm_num)
  have hm : roundHalfEven (((5534023222112865 / 18446744073709551616 : ℚ) * 10000) /
      (2 : ℚ) ^ ((1 : ℤ) - 52)) = 6755399441055743 :=
    roundHalfEven_eval_lt _ _ hfloor (by norm_num)
  rw [flQ_eval_pos _ _ _ (by norm_num) (by norm_num) he hm]
  norm_num

/-- `ToInt32` truncation of the rounded product `2.9999999999999996`
yields `2`, not `3`. -/
theorem jsTrunc_0003_product :
    jsTrunc (6755399441055743 / 2251799813685248) = 2 := by
  unfold jsTrunc
  rw [if_neg (by norm_num), rat_floor_eval _ 2 (by norm_num) (by norm_num)]

/-- The binary64 value of the decoded fixed-point quotient `2 / 10000`. -/
theorem flQ_2_div_10000 :
    flQ (2 / 10000) = 7378697629483821 / 36893488147419103232 := by
  have he : ratExp2 ((2 : ℚ) / 10000) = -13 :=
    ratExp2_eval _ 0 12 _
      (by rw [show ((2 : ℚ) / 10000).num.toNat = 1 by norm_num]; decide)
      (by rw [show ((2 : ℚ) / 10000).den = 5000 by norm_num]; decide)
      (by rw [if_neg (by norm_num)]; norm_num)
  have hfloor : (((2 : ℚ) / 10000) / (2 : ℚ) ^ ((-13 : ℤ) - 52)).floor =
      7378697629483820 :=
    rat_floor_eval _ _ (by norm_num) (by norm_num)
  have hm : roundHalfEven (((2 : ℚ) / 10000) / (2 : ℚ) ^ ((-13 : ℤ) - 52)) =
      7378697629483820 + 1 :=
    roundHalfEven_eval_gt _ _ hfloor (by norm_num) (by norm_num)
  rw [flQ_eval_pos _ _ _ (by norm_num) (by norm_num) he hm]
  norm_num

/-- `0.0625 = 625 / 10000 = 1 / 16` is a dyadic multiple of `1 / 10000`
and hence exactly representable: `flQ` fixes it. -/
theorem flQ_625_div_10000 : flQ (625 / 10000) = 625 / 10000 := by
  have he : ratExp2 ((625 : ℚ) / 10000) = -4 :=
    ratExp2_eval _ 0 4 _
      (by rw [show ((625 : ℚ) / 10000).num.toNat = 1 by norm_num]; decide)
      (by rw [show ((625 : ℚ) / 10000).den = 16 by norm_num]; decide)
      (by rw [if_pos (by norm_num)]; norm_num)
  have hfloor : (((625 : ℚ) / 10000) / (2 : ℚ) ^ ((-4 : ℤ) - 52)).floor =
      4503599627370496 :=
    rat_floor_eval _ _ (by norm_num) (by norm_num)
  have hm : roundHalfEven (((625 : ℚ) / 10000) / (2 : ℚ) ^ ((-4 : ℤ) - 52)) =
      4503599627370496 :=
    roundHalfEven_eval_lt _ _ hfloor (by norm_num)
  rw [flQ_eval_pos _ _ _ (by norm_num) (by norm_num) he hm]
  norm_num


end Utils

namespace Arr

/-- Entry type of `src/fileFormats/archive/array.ts`: a tagged record
`{type: 'int' | 'string' | 'bool' | 'double', value}`.  The numeric
values (JavaScript doubles) are modelled as rationals; strings as lists
of UTF-16 code units. -/
inductive ArrEntry
  | int (value : ℚ)
  | str (value : List Nat)
  | bool (value : Bool)
  | double (value : ℚ)
  deriving DecidableEq, Repr

/-- The `ValueType` enum of `array.ts`:
`INTEGER = 1, FLOAT = 4, STRING = 2, BOOLEAN = 3`. -/
def ValueType.INTEGER : Nat := 1
def ValueType.FLOAT : Nat := 4
def ValueType.STRING : Nat := 2
def ValueType.BOOLEAN : Nat := 3

/-- Loop body of `deserializeArray` in `array.ts`: reads `count` entries
from the remaining bytes.  The `switch` on the type tag has NO default
case in this revision, so a tag outside `{1, 2, 3, 4}` pushes nothing
and the loop simply continues with the next iteration. -/
def deserializeEntries : Nat → List Nat → Except Utils.DecodeError (List ArrEntry)
  | 0, _ => .ok []
  | n + 1, bytes =>
    match Utils.getUint32 bytes with
    | .error e => .error e
    | .ok (type, b1) =>
      match type with
      | 1 =>
        match Utils.getInt32 b1 with
        | .error e => .error e
        | .ok (v, b2) =>
          match deserializeEntries n b2 with
          | .error e => .error e
          | .ok rest => .ok (.int (v : ℚ) :: rest)
      | 2 =>
        match Utils.getUint32 b1 with
        | .error e => .error e
        | .ok (length, b2) =>
          let (bytes, b3) := Utils.read b2 length
          match deserializeEntries n b3 with
          | .error e => .error e
          | .ok rest => .ok (.str (Utils.decodeWin1250 bytes) :: rest)
      | 3 =>
        match Utils.getUint32 b1 with
        | .error e => .error e
        | .ok (v, b2) =>
          match deserializeEntries n b2 with
          | .error e => .error e
          | .ok rest => .ok (.bool (v == 1) :: rest)
      | 4 =>
        match Utils.getInt32 b1 with
        | .error e => .error e
        | .ok (v, b2) =>
          match deserializeEntries n b2 with
          | .error e => .error e
          | .ok rest => .ok (.double (Utils.flQ ((v : ℚ) / 10000)) :: rest)
      | _ => deserializeEntries n b1

/-- `deserializeArray` of `array.ts`: read the 4-byte entry count, then
that many entries. -/
def deserializeArray (data : List Nat) : Except Utils.DecodeError (List ArrEntry) :=
  match Utils.getUint32 data with
  | .error e => .error e
  | .ok (count, rest) => deserializeEntries count rest

/-- Per-entry write of `serializeArray` in `array.ts`: 4-byte type tag,
then the payload.  For a string the written length field is
`entry.value.length` (the code-unit count of the native string) and the
payload is its windows-1250 encoding.  For a double the source passes
the expression `entry.value * 10000` to `setInt32`: the JavaScript
multiplication rounds the true product to the nearest binary64 value
(`Utils.flQ`) BEFORE the `ToInt32` truncation — for pre-rounded values
such as `0.0003` that rounded product falls just below the intended
integer and truncates one short. -/
def serializeEntry : ArrEntry → List Nat
  | .int v => Utils.u32LE ValueType.INTEGER ++ Utils.setInt32Bytes v
  | .str s => Utils.u32LE ValueType.STRING ++ Utils.u32LE s.length ++
      Utils.encodeWin1250 s
  | .bool b => Utils.u32LE ValueType.BOOLEAN ++ Utils.u32LE (if b then 1 else 0)
  | .double v => Utils.u32LE ValueType.FLOAT ++
      Utils.setInt32Bytes (Utils.flQ (v * 10000))

/-- `serializeArray` of `array.ts`: 4-byte entry count followed by the
serialized entries in order. -/
def serializeArray (data : List ArrEntry) : List Nat :=
  Utils.u32LE data.length ++ data.flatMap serializeEntry

/-- Well-formedness of an in-memory entry per the data model of the
format: an Integer holds an integral value representable in 32 bits
(`Integer(i32)`), a Double holds a binary64-representable value
(`flQ v = v` — every in-memory JavaScript number is) that is an exact
multiple of `1 / 10000` with scaled value representable in 32 bits, and
a String holds only code units representable in the legacy code page.
Note that for a Double both conditions hold together only when the
scaled value is divisible by `5 ^ 4` (e.g. `0.0625`); the merely
pre-rounded doubles such as `0.0003` are representable but NOT exact
multiples of `1 / 10000`, and for them the round-trip genuinely fails
(see the C1 counterexample). -/
def wfEntry : ArrEntry → Prop
  | .int v => v.den = 1 ∧ -2147483648 ≤ v.num ∧ v.num < 2147483648
  | .str s => s.length < 4294967296 ∧ ∀ c ∈ s, Utils.win1250Representable c
  | .bool _ => True
  | .double v => Utils.flQ v = v ∧ (v * 10000).den = 1 ∧
      -2147483648 ≤ (v * 10000).num ∧ (v * 10000).num < 2147483648

instance (e : ArrEntry) : Decidable (wfEntry e) := by
  cases e <;> (unfold wfEntry; infer_instance)

theorem rat_eq_num_of_den_one (q : ℚ) (h : q.den = 1) : q = (q.num : ℚ) := by
  conv_lhs => rw [← Rat.num_div_den q]
  rw [h]
  simp

theorem deserializeEntries_cons (e : ArrEntry) (n : Nat) (rest : List Nat)
    (h : wfEntry e) :
    deserializeEntries (n + 1) (serializeEntry e ++ rest) =
      (deserializeEntries n rest).map (e :: ·) := by
  cases e with
  | int v =>
    obtain ⟨hden, h1, h2⟩ := h
    have hv : v = (v.num : ℚ) := rat_eq_num_of_den_one v hden
    rw [serializeEntry, List.append_assoc, deserializeEntries,
      Utils.getUint32_u32LE_of_lt _ _ (by decide)]
    rw [show ValueType.INTEGER = 1 from rfl]
    dsimp only
    rw [hv, Utils.getInt32_setInt32Bytes v.num rest h1 h2]
    dsimp only
    cases deserializeEntries n rest <;> simp [Except.map, ← hv]
  | str s =>
    obtain ⟨hlen, hrep⟩ := h
    rw [serializeEntry, List.append_assoc, List.append_assoc,
      deserializeEntries, Utils.getUint32_u32LE_of_lt _ _ (by decide)]
    rw [show ValueType.STRING = 2 from rfl]
    dsimp only
    rw [Utils.getUint32_u32LE_of_lt _ _ hlen]
    dsimp only
    rw [show s.length = (Utils.encodeWin1250 s).length from
      (Utils.encodeWin1250_length s).symm]
    rw [Utils.read_append]
    dsimp only
    rw [Utils.decodeWin1250_encodeWin1250 s hrep]
    cases deserializeEntries n rest <;> simp [Except.map]
  | bool b =>
    rw [serializeEntry, List.append_assoc, deserializeEntries,
      Utils.getUint32_u32LE_of_lt _ _ (by cases b <;> decide)]
    rw [show ValueType.BOOLEAN = 3 from rfl]
    dsimp only
    rw [Utils.getUint32_u32LE_of_lt _ _ (by cases b <;> decide)]
    dsimp only
    cases deserializeEntries n rest <;> cases b <;> simp [Except.map]
  | double v =>
    obtain ⟨hfl, hden, h1, h2⟩ := h
    have hv : v * 10000 = ((v * 10000).num : ℚ) :=
      rat_eq_num_of_den_one _ hden
    have hback : (((v * 10000).num : ℚ)) / 10000 = v := by
      rw [← hv]
      field_simp
    have hflprod : Utils.flQ (v * 10000) = ((v * 10000).num : ℚ) := by
      rw [hv, Utils.flQ_intCast _ h1 h2, Rat.num_intCast]
    rw [serializeEntry, List.append_assoc, deserializeEntries,
      Utils.getUint32_u32LE_of_lt _ _ (by decide)]
    rw [show ValueType.FLOAT = 4 from rfl]
    dsimp only
    rw [hflprod, Utils.getInt32_setInt32Bytes (v * 10000).num rest h1 h2]
    dsimp only
    rw [hback, hfl]
    cases deserializeEntries n rest <;> simp [Except.map]

theorem deserializeEntries_serialize (es : List ArrEntry)
    (h : ∀ e ∈ es, wfEntry e) :
    deserializeEntries es.length (es.flatMap serializeEntry) = .ok es := by
  induction es with
  | nil => rfl
  | cons e es ih =>
    have he : wfEntry e := h e (List.mem_cons_self ..)
    have hes : ∀ x ∈ es, wfEntry x := fun x hx => h x (List.mem_cons_of_mem _ hx)
    rw [List.length_cons, List.flatMap_cons,
      deserializeEntries_cons e es.length _ he, ih hes]
    rfl

/-- C1 (amended): for every finite sequence of entries that satisfies
the data model of the format — Integers integral 32-bit values, Strings
over code units representable in the legacy code page, Doubles
binary64-representable values that are exact multiples of `1 / 10000`
in the fixed-point range (equivalently, scaled values divisible by
`5 ^ 4`), count below `2 ^ 32` — decoding the encoding of the sequence
returns the sequence itself exactly.  The original claim, over all
pre-rounded doubles, is FALSE of the program: for the nearest-double
approximations `flQ (k / 10000)` the IEEE product with `10000` can
truncate to `k - 1` (see the counterexample at `0.0003`). -/
theorem roundTrip_deserialize_serialize (es : List ArrEntry)
    (hwf : ∀ e ∈ es, wfEntry e) (hlen : es.length < 4294967296) :
    deserializeArray (serializeArray es) = .ok es := by
  rw [serializeArray, deserializeArray,
    Utils.getUint32_u32LE_of_lt _ _ hlen]
  exact deserializeEntries_serialize es hwf

/-- Witness for C1 at a concrete sequence containing one entry of each
kind. -/
theorem roundTrip_deserialize_serialize_witness :
    deserializeArray (serializeArray
      [.int 42, .str (Utils.units "ABC"), .bool true,
       .double (625 / 10000)]) =
      .ok [.int 42, .str (Utils.units "ABC"), .bool true,
       .double (625 / 10000)] :=
  roundTrip_deserialize_serialize _
    (by
      intro e he
      fin_cases he
      · exact ⟨by norm_num, by norm_num, by norm_num⟩
      · exact ⟨by decide, by decide⟩
      · trivial
      · exact ⟨Utils.flQ_625_div_10000, by norm_num, by norm_num, by norm_num⟩)
    (by decide)

end Arr


namespace Js

/-- A JavaScript number: a finite double (modelled exactly as a
rational), `NaN`, or an infinity. -/
inductive JsNumber
  | finite (q : ℚ)
  | nan
  | posInf
  | negInf
  deriving DecidableEq, Repr

/-- The `ArrEntry` type of the `reksio-formats` revision:
`bigint | string | boolean | number`, discriminated at runtime by
`typeof`. -/
inductive JsValue
  | bigint (v : Int)
  | str (s : List Nat)
  | bool (b : Bool)
  | num (n : JsNumber)
  deriving DecidableEq, Repr

/-- The characters `String.prototype.trim` and the numeric-parsing
functions treat as whitespace (ECMAScript WhiteSpace and
LineTerminator). -/
def isWhitespace (c : Nat) : Bool :=
  (c == 9) || (c == 10) || (c == 11) || (c == 12) || (c == 13) ||
  (c == 32) || (c == 160) || (c == 0x2028) || (c == 0x2029) || (c == 0xFEFF)

def isDigit (c : Nat) : Bool :=
  (48 ≤ c) && (c ≤ 57)

def digitsToNat (ds : List Nat) : Nat :=
  ds.foldl (fun a c => a * 10 + (c - 48)) 0

/-- Result of `parseFloat`: not a number, an infinity, or a finite
value. -/
inductive ParseFloatResult
  | nan
  | inf (neg : Bool)
  | finite (q : ℚ)
  deriving DecidableEq, Repr

/-- The global `parseFloat` of the JavaScript host: skip leading
whitespace, take the longest prefix that is a `StrDecimalLiteral`
(optional sign, then `Infinity` or digits with an optional fraction and
an optional well-formed exponent), and evaluate it; `NaN` when no such
prefix exists.  The value is computed exactly in `ℚ`; rounding of the
decimal literal to the nearest IEEE double is not modelled (the claims
below exercise only exactly-representable values). -/
def jsParseFloat (s : List Nat) : ParseFloatResult :=
  let s1 := s.dropWhile isWhitespace
  let signed : Bool × List Nat :=
    match s1 with
    | 43 :: r => (false, r)
    | 45 :: r => (true, r)
    | r => (false, r)
  let neg := signed.1
  let s2 := signed.2
  if s2.take 8 = [73, 110, 102, 105, 110, 105, 116, 121] then
    .inf neg
  else
    let ipart := s2.takeWhile isDigit
    let r1 := s2.dropWhile isDigit
    let fracPart : List Nat × List Nat :=
      match r1 with
      | 46 :: r => (r.takeWhile isDigit, r.dropWhile isDigit)
      | r => ([], r)
    let fpart := fracPart.1
    let r2 := fracPart.2
    if ipart.isEmpty && fpart.isEmpty then
      .nan
    else
      let exp : Int :=
        match r2 with
        | 101 :: rest =>
          let esigned : Bool × List Nat :=
            match rest with
            | 43 :: r => (false, r)
            | 45 :: r => (true, r)
            | r => (false, r)
          let ds := esigned.2.takeWhile isDigit
          if ds.isEmpty then 0
          else if esigned.1 then -(digitsToNat ds : Int) else (digitsToNat ds : Int)
        | 69 :: rest =>
          let esigned : Bool × List Nat :=
            match rest with
            | 43 :: r => (false, r)
            | 45 :: r => (true, r)
            | r => (false, r)
          let ds := esigned.2.takeWhile isDigit
          if ds.isEmpty then 0
          else if esigned.1 then -(digitsToNat ds : Int) else (digitsToNat ds : Int)
        | _ => 0
      let mag : ℚ :=
        ((digitsToNat ipart : ℚ) +
          (digitsToNat fpart : ℚ) / ((10 : ℚ) ^ fpart.length)) *
          (10 : ℚ) ^ exp
      .finite (if neg then -mag else mag)

/-- `String.prototype.toUpperCase`, modelled on the ASCII range (the
only range the editor compares against, namely the word `TRUE`); other
code units are left unchanged. -/
def toUpperUnit (c : Nat) : Nat :=
  if 97 ≤ c ∧ c ≤ 122 then c - 32 else c

def toUpper (s : List Nat) : List Nat :=
  s.map toUpperUnit

/-- `String.prototype.trim`: strip whitespace from both ends. -/
def trim (s : List Nat) : List Nat :=
  ((s.dropWhile isWhitespace).reverse.dropWhile isWhitespace).reverse

/-- Decimal digits of a natural number, as UTF-16 code units. -/
def natToDecUnits (n : Nat) : List Nat :=
  (Nat.toDigits 10 n).map Char.toNat

/-- `BigInt.prototype.toString` / decimal rendering of an integer. -/
def intToDecUnits (i : Int) : List Nat :=
  if i < 0 then 45 :: natToDecUnits (-i).toNat else natToDecUnits i.toNat

/-- `Number.prototype.toFixed(4)`: render with exactly four decimal
places.  Per the ECMAScript algorithm the sign is taken first and the
magnitude is rounded to the integer `n` minimising `|n / 10^4 - x|`,
ties toward the larger `n`. -/
def toFixed4 : JsNumber → List Nat
  | .nan => [78, 97, 78]
  | .posInf => [73, 110, 102, 105, 110, 105, 116, 121]
  | .negInf => 45 :: [73, 110, 102, 105, 110, 105, 116, 121]
  | .finite q =>
    let a : ℚ := if q < 0 then -q else q
    let n : Nat := ((a * 10000 + 1 / 2).floor).toNat
    let frac := natToDecUnits (n % 10000)
    let body := natToDecUnits (n / 10000) ++ 46 ::
      (List.replicate (4 - frac.length) 48 ++ frac)
    if q < 0 then 45 :: body else body

end Js

namespace RF

open Js

/-- The `ValueType` enum of the `reksio-formats` array module:
`INTEGER = 1, STRING = 2, BOOL = 3, DOUBLE = 4`. -/
def ValueType.INTEGER : Nat := 1
def ValueType.STRING : Nat := 2
def ValueType.BOOL : Nat := 3
def ValueType.DOUBLE : Nat := 4

/-- `getValueType`: discriminates an entry by `typeof`. -/
def getValueType : JsValue → Nat
  | .bigint _ => ValueType.INTEGER
  | .str _ => ValueType.STRING
  | .bool _ => ValueType.BOOL
  | .num _ => ValueType.DOUBLE

/-- Loop body of the `reksio-formats` `deserializeArray`.  Unlike the
`array.ts` revision, its `switch` HAS a default case that throws
`Unknown ARR entry type`. -/
def deserializeEntries : Nat → List Nat → Except Utils.DecodeError (List JsValue)
  | 0, _ => .ok []
  | n + 1, bytes =>
    match Utils.getUint32 bytes with
    | .error e => .error e
    | .ok (type, b1) =>
      match type with
      | 1 =>
        match Utils.getInt32 b1 with
        | .error e => .error e
        | .ok (v, b2) =>
          match deserializeEntries n b2 with
          | .error e => .error e
          | .ok rest => .ok (.bigint v :: rest)
      | 2 =>
        match Utils.getUint32 b1 with
        | .error e => .error e
        | .ok (length, b2) =>
          let (bytes, b3) := Utils.read b2 length
          match deserializeEntries n b3 with
          | .error e => .error e
          | .ok rest => .ok (.str (Utils.decodeWin1250 bytes) :: rest)
      | 3 =>
        match Utils.getUint32 b1 with
        | .error e => .error e
        | .ok (v, b2) =>
          match deserializeEntries n b2 with
          | .error e => .error e
          | .ok rest => .ok (.bool (v == 1) :: rest)
      | 4 =>
        match Utils.getInt32 b1 with
        | .error e => .error e
        | .ok (v, b2) =>
          match deserializeEntries n b2 with
          | .error e => .error e
          | .ok rest => .ok (.num (.finite (Utils.flQ ((v : ℚ) / 10000))) :: rest)
      | t => .error (.unknownType t)

/-- `deserializeArray` of the `reksio-formats` revision. -/
def deserializeArray (data : List Nat) : Except Utils.DecodeError (List JsValue) :=
  match Utils.getUint32 data with
  | .error e => .error e
  | .ok (count, rest) => deserializeEntries count rest

/-- Per-entry write of the `reksio-formats` `serializeArray`
(`Number(entry)` on a bigint is exact in the 32-bit range; `ToInt32` of
`NaN` and of the infinities is `0`). -/
def serializeEntry : JsValue → List Nat
  | .bigint v => Utils.u32LE ValueType.INTEGER ++ Utils.setInt32Bytes (v : ℚ)
  | .str s => Utils.u32LE ValueType.STRING ++ Utils.u32LE s.length ++
      Utils.encodeWin1250 s
  | .bool b => Utils.u32LE ValueType.BOOL ++ Utils.u32LE (if b then 1 else 0)
  | .num n => Utils.u32LE ValueType.DOUBLE ++
      (match n with
       | .finite q => Utils.setInt32Bytes (Utils.flQ (q * 10000))
       | _ => Utils.u32LE 0)

/-- `serializeArray` of the `reksio-formats` revision. -/
def serializeArray (data : List JsValue) : List Nat :=
  Utils.u32LE data.length ++ data.flatMap serializeEntry

end RF

namespace Editor

open Js

/-- `makeIntegerEntry` of `arrEditor.ts`: coerce any entry value to a
`bigint`.  A string goes through `parseFloat` (`0n` on `NaN`, and
`BigInt(Math.trunc(Infinity))` throws a `RangeError`); a boolean becomes
`0n` / `1n`; a number is truncated toward zero (`BigInt` of a
non-finite number throws). -/
def makeIntegerEntry : JsValue → Except String JsValue
  | .bigint v => .ok (.bigint v)
  | .str s =>
    match jsParseFloat s with
    | .nan => .ok (.bigint 0)
    | .inf _ => .error "RangeError"
    | .finite q => .ok (.bigint (Utils.jsTrunc q))
  | .bool b => .ok (.bigint (if b then 1 else 0))
  | .num n =>
    match n with
    | .finite q => .ok (.bigint (Utils.jsTrunc q))
    | _ => .error "RangeError"

/-- `makeStringEntry` of `arrEditor.ts`: coerce any entry value to a
string — `BigInt.toString()`, identity on strings, `TRUE` / `FALSE` on
booleans, `toFixed(4)` on numbers. -/
def makeStringEntry : JsValue → List Nat
  | .bigint v => intToDecUnits v
  | .str s => s
  | .bool b => if b then [84, 82, 85, 69] else [70, 65, 76, 83, 69]
  | .num n => toFixed4 n

/-- `makeBoolEntry` of `arrEditor.ts`: coerce any entry value to a
boolean.  Note the bigint and number branches test `value === 0`
(true exactly when the value IS zero); the string branch is
`value == '1' || value.toUpperCase().trim() == 'TRUE'`. -/
def makeBoolEntry : JsValue → Bool
  | .bigint v => v == 0
  | .str s => (s == [49]) || (trim (toUpper s) == [84, 82, 85, 69])
  | .bool b => b
  | .num n =>
    match n with
    | .finite q => q == 0
    | _ => false

/-- `makeDoubleEntry` of `arrEditor.ts`: coerce any entry value to a
number — `Number(bigint)` (exact in the modelled range), `parseFloat`
with default `0` on `NaN` for strings, `0` / `1` for booleans, identity
on numbers. -/
def makeDoubleEntry : JsValue → JsNumber
  | .bigint v => .finite (v : ℚ)
  | .str s =>
    match jsParseFloat s with
    | .nan => .finite 0
    | .inf neg => if neg then .negInf else .posInf
    | .finite q => .finite q
  | .bool b => .finite (if b then 1 else 0)
  | .num n => n

/-- `convertEntry` of `arrEditor.ts`: dispatch on the numeric target
type (`1` Integer, `2` String, `3` Bool, `4` Double); any other target
throws `Unknown ARR value type`. -/
def convertEntry (value : JsValue) (targetType : Nat) : Except String JsValue :=
  match targetType with
  | 1 => makeIntegerEntry value
  | 2 => .ok (.str (makeStringEntry value))
  | 3 => .ok (.bool (makeBoolEntry value))
  | 4 => .ok (.num (makeDoubleEntry value))
  | _ => .error "Unknown ARR value type"

/-- `ArrDocument.addEntry(type)`: convert the empty string to the
requested type and push the result at the end of the entry list. -/
def addEntry (entries : List JsValue) (type : Nat) : Except String (List JsValue) :=
  match convertEntry (.str []) type with
  | .error e => .error e
  | .ok added => .ok (entries ++ [added])

/-- `Array.prototype.toSorted((a, b) => a - b)` on an index list:
ascending insertion sort (stable, which is irrelevant for plain
numbers). -/
def insertAsc (x : Nat) : List Nat → List Nat
  | [] => [x]
  | y :: ys => if x ≤ y then x :: y :: ys else y :: insertAsc x ys

def sortNat (l : List Nat) : List Nat :=
  l.foldr insertAsc []

/-- `splice(i, 1)`: remove the element at index `i`. -/
def spliceRemove (l : List JsValue) (i : Nat) : List JsValue :=
  l.take i ++ l.drop (i + 1)

/-- `splice(i, 0, x)`: insert `x` at index `i`. -/
def spliceInsert (l : List JsValue) (i : Nat) (x : JsValue) : List JsValue :=
  l.take i ++ x :: l.drop i

/-- `ArrDocument.removeEntries`: the backups taken before removal,
`sortedIndices.map(index => this._entries[index])`.  A JavaScript
out-of-range access would back up `undefined`, which the model does not
represent; the claims only exercise in-range indices. -/
def removeEntriesBackups (entries : List JsValue) (indices : List Nat) : List JsValue :=
  (sortNat indices).map (fun i => entries.getD i (.bigint 0))

/-- `ArrDocument.removeEntries`: the state change applied to the entry
list — remove at each index, iterating the sorted index list in
reverse. -/
def removeEntriesApply (entries : List JsValue) (indices : List Nat) : List JsValue :=
  ((sortNat indices).reverse).foldl spliceRemove entries

/-- The `undo` closure fired by `removeEntries`: re-insert the backups
at the sorted indices, in ascending order. -/
def removeEntriesUndo (indices : List Nat) (backups : List JsValue)
    (entries : List JsValue) : List JsValue :=
  ((sortNat indices).zip backups).foldl
    (fun es ib => spliceInsert es ib.1 ib.2) entries

/-- The `redo` closure fired by `removeEntries`: remove again at the
sorted indices, iterating in reverse. -/
def removeEntriesRedo (indices : List Nat) (entries : List JsValue) : List JsValue :=
  ((sortNat indices).reverse).foldl spliceRemove entries

end Editor

/-- C1 (counterexample): the round trip fails at the pre-rounded value
`0.0003`.  The program's double for `0.0003` is the binary64 nearest
`3 / 10000` (exactly what decode produces for the stored fixed-point
`3`); it is not an exact multiple of `1 / 10000`, the IEEE product with
`10000` is `2.9999999999999996`, `ToInt32` stores `2`, and decoding the
encoding returns the double for `0.0002` — a different value. -/
theorem roundTrip_fails_for_preRounded_0003 :
    Utils.flQ (3 / 10000) ≠ 3 / 10000 ∧
    Arr.serializeArray [.double (Utils.flQ (3 / 10000))] =
      [1, 0, 0, 0, 4, 0, 0, 0, 2, 0, 0, 0] ∧
    Arr.deserializeArray (Arr.serializeArray [.double (Utils.flQ (3 / 10000))]) =
      .ok [.double (Utils.flQ (2 / 10000))] ∧
    Utils.flQ (2 / 10000) ≠ Utils.flQ (3 / 10000) := by
  have hser : Arr.serializeArray [.double (Utils.flQ (3 / 10000))] =
      [1, 0, 0, 0, 4, 0, 0, 0, 2, 0, 0, 0] := by
    rw [Arr.serializeArray]
    simp only [List.flatMap_cons, List.flatMap_nil, List.append_nil,
      List.length_cons, List.length_nil, Arr.serializeEntry]
    rw [Utils.flQ_3_div_10000, Utils.flQ_0003_times_10000,
      Utils.setInt32Bytes, Utils.int32Bits, Utils.jsTrunc_0003_product]
    decide
  refine ⟨?_, hser, ?_, ?_⟩
  · rw [Utils.flQ_3_div_10000]
    norm_num
  · rw [hser]
    rfl
  · rw [Utils.flQ_2_div_10000, Utils.flQ_3_div_10000]
    norm_num

/-- C2 (code evaluated at the failing input): on a buffer declaring one
entry with type tag 5, the `array.ts` decoder — whose `switch` has no
default case — pushes nothing and returns an empty entry list with no
error, while the `reksio-formats` revision of the same function throws
the unrecognized-type error the claim describes. -/
theorem unknownTag_skipped_by_arrayTs_thrown_by_rf :
    Arr.deserializeArray [1, 0, 0, 0, 5, 0, 0, 0] = .ok [] ∧
    RF.deserializeArray [1, 0, 0, 0, 5, 0, 0, 0] =
      .error (.unknownType 5) :=
  ⟨rfl, rfl⟩

/-- C3 (counterexample): a buffer declaring one String entry of length 5
followed by only 2 payload bytes decodes WITHOUT error to the silently
shortened string, because `BinaryBuffer.read` clamps instead of
failing — contradicting the claim that any declared field exceeding the
remaining buffer makes decode fail. -/
theorem truncatedString_decodes_without_error :
    Arr.deserializeArray [1, 0, 0, 0, 2, 0, 0, 0, 5, 0, 0, 0, 65, 66] =
      .ok [.str [65, 66]] :=
  rfl

/-- C3 (amended): the fixed-width reads (`getUint32` / `getInt32`, via
the native `DataView` bounds check) do fail with a `RangeError` when
fewer than 4 bytes remain — in particular a buffer shorter than its own
count field aborts decode with no partial result — but `read(n)` clamps
to the remaining bytes (`ArrayBuffer.slice`) and returns
`min n remaining` bytes instead of failing. -/
theorem truncation_fixedWidth_fails_read_clamps :
    (∀ l : List Nat, l.length < 4 → Utils.getUint32 l = .error .rangeError) ∧
    (∀ l : List Nat, l.length < 4 → Utils.getInt32 l = .error .rangeError) ∧
    (∀ l : List Nat, l.length < 4 → Arr.deserializeArray l = .error .rangeError) ∧
    (∀ (l : List Nat) (n : Nat), ((Utils.read l n).1).length = min n l.length) := by
  have hu : ∀ l : List Nat, l.length < 4 → Utils.getUint32 l = .error .rangeError := by
    intro l h
    match l with
    | [] => rfl
    | [_] => rfl
    | [_, _] => rfl
    | [_, _, _] => rfl
    | _ :: _ :: _ :: _ :: _ =>
      simp only [List.length_cons] at h
      omega
  refine ⟨hu, ?_, ?_, ?_⟩
  · intro l h
    rw [Utils.getInt32, hu l h]
  · intro l h
    rw [Arr.deserializeArray, hu l h]
  · intro l n
    simp [Utils.read]

/-- Witness for the amended C3 at concrete inputs: a 2-byte buffer fails
both the raw read and the whole decode, while `read` of 5 bytes from a
2-byte remainder returns the 2 available bytes. -/
theorem truncation_fixedWidth_fails_read_clamps_witness :
    Utils.getUint32 [0, 1] = .error .rangeError ∧
    Arr.deserializeArray [0, 1] = .error .rangeError ∧
    ((Utils.read [65, 66] 5).1).length = min 5 2 :=
  ⟨truncation_fixedWidth_fails_read_clamps.1 [0, 1] (by decide),
   truncation_fixedWidth_fails_read_clamps.2.2.1 [0, 1] (by decide),
   truncation_fixedWidth_fails_read_clamps.2.2.2 [65, 66] 5⟩

/-- C4 (code evaluated at the failing input): decoding the empty byte
buffer does NOT return the empty entry sequence — reading the count
field throws the `DataView` `RangeError` — while encoding the empty
entry sequence does return the 4-byte buffer holding `0`. -/
theorem emptyBuffer_decode_fails_emptySeq_encodes_zero :
    Arr.deserializeArray [] = .error .rangeError ∧
    Arr.serializeArray [] = [0, 0, 0, 0] :=
  ⟨rfl, rfl⟩

/-- C5: for every String entry, both encoders write as the 4-byte length
field exactly the byte count of the windows-1250 encoded form of the
string, followed by exactly those bytes.  (The source writes
`entry.value.length`, the UTF-16 code-unit count of the native string;
this equals the encoded byte count because the single-byte encoder emits
exactly one byte per code unit.) -/
theorem string_lengthField_is_encoded_byteCount (s : List Nat) :
    Arr.serializeEntry (.str s) =
      Utils.u32LE 2 ++ Utils.u32LE (Utils.encodeWin1250 s).length ++
        Utils.encodeWin1250 s ∧
    RF.serializeEntry (.str s) =
      Utils.u32LE 2 ++ Utils.u32LE (Utils.encodeWin1250 s).length ++
        Utils.encodeWin1250 s := by
  rw [Utils.encodeWin1250_length]
  exact ⟨rfl, rfl⟩

/-- C6 (counterexample): converting the Integer entry `1` (and the
Double entry `1`) to Boolean yields `false`, not the `true` the claim
requires for nonzero values — and converting Integer `0` yields `true`:
`makeBoolEntry` tests `value === 0`. -/
theorem boolCoercion_nonzero_false_zero_true :
    Editor.convertEntry (.bigint 1) 3 = .ok (.bool false) ∧
    Editor.convertEntry (.num (.finite 1)) 3 = .ok (.bool false) ∧
    Editor.convertEntry (.bigint 0) 3 = .ok (.bool true) := by
  refine ⟨rfl, ?_, rfl⟩
  norm_num [Editor.convertEntry, Editor.makeBoolEntry]

/-- C6 (amended): for every Integer entry with value `v` and every
finite Double entry with value `q`, conversion to Boolean yields `true`
exactly when the value equals `0` (the `value === 0` test of
`makeBoolEntry`; the claimed `value ≠ 0` is the opposite polarity). -/
theorem boolCoercion_true_iff_zero (v : Int) (q : ℚ) :
    Editor.convertEntry (.bigint v) 3 = .ok (.bool (v == 0)) ∧
    Editor.convertEntry (.num (.finite q)) 3 = .ok (.bool (q == 0)) :=
  ⟨rfl, rfl⟩

/-- C7: every string on which `parseFloat` yields `NaN` coerces to
Integer `0` and to Double `0`, and neither conversion reports an
error. -/
theorem unparseableString_coerces_to_zero (s : List Nat)
    (h : Js.jsParseFloat s = .nan) :
    Editor.convertEntry (.str s) 1 = .ok (.bigint 0) ∧
    Editor.convertEntry (.str s) 4 = .ok (.num (.finite 0)) := by
  constructor
  · simp [Editor.convertEntry, Editor.makeIntegerEntry, h]
  · simp [Editor.convertEntry, Editor.makeDoubleEntry, h]

/-- Witness for C7 at the concrete string `not a number`. -/
theorem unparseableString_coerces_to_zero_witness :
    Js.jsParseFloat (Utils.units "not a number") = .nan ∧
    Editor.convertEntry (.str (Utils.units "not a number")) 1 =
      .ok (.bigint 0) ∧
    Editor.convertEntry (.str (Utils.units "not a number")) 4 =
      .ok (.num (.finite 0)) :=
  ⟨by decide,
   (unparseableString_coerces_to_zero _ (by decide)).1,
   (unparseableString_coerces_to_zero _ (by decide)).2⟩

/-- C8: converting any entry to its own current type is the identity and
raises no error: `convertEntry e (getValueType e) = e` for each of the
four kinds. -/
theorem convert_to_own_type_is_identity (e : Js.JsValue) :
    Editor.convertEntry e (RF.getValueType e) = .ok e := by
  cases e with
  | bigint v => rfl
  | str s => rfl
  | bool b => rfl
  | num n => rfl

/-- C9: removing the index set `{0, 2}` (in either presentation order)
from the sequence `[A, B, C]` leaves `[B]`; the `undo` closure restores
`[A, B, C]` in the original order; the `redo` closure yields `[B]`
again. -/
theorem removeEntries_scenario (A B C : Js.JsValue) :
    Editor.removeEntriesApply [A, B, C] [0, 2] = [B] ∧
    Editor.removeEntriesUndo [0, 2]
      (Editor.removeEntriesBackups [A, B, C] [0, 2]) [B] = [A, B, C] ∧
    Editor.removeEntriesRedo [0, 2] [A, B, C] = [B] ∧
    Editor.removeEntriesApply [A, B, C] [2, 0] = [B] ∧
    Editor.removeEntriesUndo [2, 0]
      (Editor.removeEntriesBackups [A, B, C] [2, 0]) [B] = [A, B, C] ∧
    Editor.removeEntriesRedo [2, 0] [A, B, C] = [B] :=
  ⟨rfl, rfl, rfl, rfl, rfl, rfl⟩

/-- C10: for each of the four target types, `addEntry` appends exactly
one entry — the coercion of the empty string to that type: Integer `0`,
String empty, Boolean `false`, Double `0` — at the end of the sequence,
leaving every existing entry unchanged. -/
theorem addEntry_appends_coerced_empty_string (entries : List Js.JsValue) :
    Editor.addEntry entries 1 = .ok (entries ++ [.bigint 0]) ∧
    Editor.addEntry entries 2 = .ok (entries ++ [.str []]) ∧
    Editor.addEntry entries 3 = .ok (entries ++ [.bool false]) ∧
    Editor.addEntry entries 4 = .ok (entries ++ [.num (.finite 0)]) :=
  ⟨rfl, rfl, rfl, rfl⟩
